import Mathlib

/-!
Verification development for the local-container runtime: a cached file-system
layer, a terminal-session multiplexer, and a preview-server orchestrator.
The definitions below are shallow embeddings of the TypeScript sources:
JS `Map` objects become association lists in insertion order, timestamps become
integers (milliseconds), and asynchronous supervisor outcomes become explicit
boolean parameters.
-/

/-! ## Association lists: the embedding of a JS `Map` with string keys -/

/-- Keys of an association list, in insertion order (the key set of a JS `Map`). -/
def keysOf {β : Type _} (l : List (String × β)) : List String := l.map Prod.fst

/-- First binding for `k`, as `Map.prototype.get` on a map with unique keys. -/
def findAssoc {β : Type _} (k : String) (l : List (String × β)) : Option (String × β) :=
  l.find? (fun kv => kv.1 == k)

/-- Value stored under `k`, if any. -/
def lookupAssoc {β : Type _} (k : String) (l : List (String × β)) : Option β :=
  (findAssoc k l).map (fun kv => kv.2)

/-- Deletion of key `k`, as `Map.prototype.delete` on a map with unique keys. -/
def eraseAssoc {β : Type _} (k : String) (l : List (String × β)) : List (String × β) :=
  l.filter (fun kv => !(kv.1 == k))

/-- Insertion as `Map.prototype.set`: an existing key keeps its position and is
overwritten, a fresh key is appended at the end. -/
def setAssoc {β : Type _} (k : String) (v : β) (l : List (String × β)) : List (String × β) :=
  if l.any (fun kv => kv.1 == k) then
    l.map (fun kv => if kv.1 == k then (k, v) else kv)
  else
    l ++ [(k, v)]

/-! ## POSIX path model (`path.resolve`, `path.extname`, `String.startsWith`) -/

/-- Splits a character list at every `'/'`, keeping empty segments. -/
def splitSlashAux : List Char → List Char → List (List Char)
  | [], acc => [acc.reverse]
  | c :: rest, acc =>
    if c = '/' then acc.reverse :: splitSlashAux rest []
    else splitSlashAux rest (c :: acc)

/-- Segments of a path string, split at `'/'`. -/
def splitSlash (cs : List Char) : List (List Char) := splitSlashAux cs []

/-- Path components of a string, as lists of characters turned into strings. -/
def pathComps (s : String) : List String := (splitSlash s.data).map (fun l => String.mk l)

/-- One normalization step of `path.resolve`: drop empty and `.` segments,
let `..` pop the previous segment (staying at the root when there is none). -/
def normStep (acc : List String) (c : String) : List String :=
  if c = "" || c = "." then acc
  else if c = ".." then acc.dropLast
  else acc ++ [c]

/-- Normalized component list of an absolute path. -/
def normComps (cs : List String) : List String := cs.foldl normStep []

/-- Renders normalized components back to an absolute path string. -/
def renderAbs (cs : List String) : String :=
  if cs.isEmpty then "/" else cs.foldl (fun acc c => acc ++ "/" ++ c) ""

/-- POSIX `path.isAbsolute`. -/
def isAbsolutePath (s : String) : Bool := s.data.head? == some '/'

/-- POSIX `path.resolve(base, target)` for an absolute, already-normalized `base`. -/
def pathResolve (base target : String) : String :=
  if isAbsolutePath target then renderAbs (normComps (pathComps target))
  else renderAbs (normComps (pathComps base ++ pathComps target))

/-- JS `s.startsWith(pre)`: a plain character-wise prefix test. -/
def strStartsWith (s pre : String) : Bool := pre.data.isPrefixOf s.data

/-- Whether `p` is the root itself or lies strictly below the directory `root`,
i.e. `p` is a path the sandbox is allowed to touch. -/
def isWithinRoot (root p : String) : Bool := p == root || strStartsWith p (root ++ "/")

/-! ## `NodeFileSystem` (src/unnamed/part_007) -/

/-- File-system adapter holding the resolved sandbox root. -/
structure NodeFileSystem where
  basePath : String
deriving DecidableEq, Repr

/-- Embedding of `NodeFileSystem.resolvePath`: resolve against the root, then
accept exactly when the resolved string starts with the root string, else fail
with the out-of-bounds error (modelled as `none`). -/
def NodeFileSystem.resolvePath (fs : NodeFileSystem) (filePath : String) : Option String :=
  let resolved := pathResolve fs.basePath filePath
  if strStartsWith resolved fs.basePath then some resolved else none

/-- Embedding of `NodeFileSystem.readFile`: resolve, then hand the resolved
path to the underlying OS read. `osRead` stands for `fs.readFile` of Node. -/
def NodeFileSystem.readFile (fs : NodeFileSystem) (osRead : String → Option String)
    (filePath : String) : Option String :=
  (fs.resolvePath filePath).bind osRead

/-! ## `CacheManager` (src/unnamed/part_006) -/

/-- One cache entry: mirrors the `CacheEntry<T>` interface. -/
structure CacheEntry (V : Type) where
  value : V
  timestamp : Int
  ttl : Int
  hits : Nat
deriving DecidableEq, Repr

/-- The cache store: entries in `Map` insertion order plus construction
parameters `maxSize` and `defaultTTL`. -/
structure CacheManager (V : Type) where
  entries : List (String × CacheEntry V)
  maxSize : Nat
  defaultTTL : Int
deriving DecidableEq, Repr

/-- JS `ttl || defaultTTL`: an absent or zero ttl argument falls back to the
default. -/
def resolveTTL (ot : Option Int) (d : Int) : Int :=
  match ot with
  | none => d
  | some t => if t = 0 then d else t

/-- Expiry predicate `Date.now() - entry.timestamp > entry.ttl`, shared by
`get`, `has` and the periodic `cleanup` sweep. -/
def isExpired {V : Type} (now : Int) (e : CacheEntry V) : Bool :=
  decide (e.ttl < now - e.timestamp)

/-- The eviction score `entry.hits + (Date.now() - entry.timestamp) / 1000`,
read at a fixed snapshot `now`. The score is represented multiplied by 1000 so
it stays in `Int`: every score shares the denominator 1000, so each comparison
the eviction scan makes is unchanged by the scaling. -/
def entryScore {V : Type} (now : Int) (e : CacheEntry V) : Int :=
  1000 * (e.hits : Int) + (now - e.timestamp)

/-- Body of the `evictOldest` scan: keep the first entry whose score is
strictly below the best seen so far (`score < oldestScore`). -/
def victimStep {V : Type} (now : Int) (acc : Option (String × Int))
    (kv : String × CacheEntry V) : Option (String × Int) :=
  match acc with
  | none => some (kv.1, entryScore now kv.2)
  | some (k, best) =>
    if entryScore now kv.2 < best then some (kv.1, entryScore now kv.2) else some (k, best)

/-- The scan of `evictOldest` over all entries, starting from score infinity
(modelled as the empty accumulator). -/
def selectVictim {V : Type} (now : Int) (l : List (String × CacheEntry V)) :
    Option (String × Int) :=
  l.foldl (victimStep now) none

/-- Embedding of `CacheManager.evictOldest`: delete the scanned victim, except
that the JS guard `if (oldestKey)` also rejects the empty-string key. -/
def CacheManager.evictOldest {V : Type} (c : CacheManager V) (now : Int) : CacheManager V :=
  match selectVictim now c.entries with
  | none => c
  | some (k, _) => if k = "" then c else { c with entries := eraseAssoc k c.entries }

/-- Embedding of `CacheManager.set`: evict once when at capacity, then insert
a fresh entry with zero hits. -/
def CacheManager.set {V : Type} (c : CacheManager V) (now : Int) (k : String) (v : V)
    (ot : Option Int) : CacheManager V :=
  let c1 := if c.entries.length ≥ c.maxSize then c.evictOldest now else c
  let e : CacheEntry V := ⟨v, now, resolveTTL ot c.defaultTTL, 0⟩
  { c1 with entries := setAssoc k e c1.entries }

/-- Embedding of `CacheManager.get`: lazy expiry check deleting the entry and
reporting a miss, otherwise a hit incrementing the entry's counter. -/
def CacheManager.get {V : Type} (c : CacheManager V) (now : Int) (k : String) :
    Option V × CacheManager V :=
  match findAssoc k c.entries with
  | none => (none, c)
  | some (_, e) =>
    if isExpired now e then
      (none, { c with entries := eraseAssoc k c.entries })
    else
      (some e.value,
       { c with entries :=
          c.entries.map (fun kv => if kv.1 == k then (k, { e with hits := e.hits + 1 }) else kv) })

/-- Embedding of `CacheManager.has`: same lazy expiry check, no hit counting. -/
def CacheManager.has {V : Type} (c : CacheManager V) (now : Int) (k : String) :
    Bool × CacheManager V :=
  match findAssoc k c.entries with
  | none => (false, c)
  | some (_, e) =>
    if isExpired now e then
      (false, { c with entries := eraseAssoc k c.entries })
    else
      (true, c)

/-- Embedding of `CacheManager.delete`. -/
def CacheManager.delete {V : Type} (c : CacheManager V) (k : String) :
    Bool × CacheManager V :=
  (c.entries.any (fun kv => kv.1 == k), { c with entries := eraseAssoc k c.entries })

/-- Embedding of the periodic `cleanup` sweep: collect the expired keys, then
delete them one by one; also returns the batch count it reports. -/
def CacheManager.cleanup {V : Type} (c : CacheManager V) (now : Int) :
    CacheManager V × Nat :=
  let expiredKeys := (c.entries.filter (fun kv => isExpired now kv.2)).map Prod.fst
  (expiredKeys.foldl (fun acc k => { acc with entries := eraseAssoc k acc.entries }) c,
   expiredKeys.length)

/-! ## Association-list lemmas -/

/-! ## Eviction-scan lemmas -/

/-- Concrete cache for the C4 witness: a fresh unused entry next to an old,
often-hit entry. -/
def entryFresh : CacheEntry Nat := ⟨1, 900, 5000, 0⟩

/-- Old entry with hits, carrying the higher score of the C4 witness pair. -/
def entryOld : CacheEntry Nat := ⟨2, 0, 5000, 3⟩

/-- Two-entry cache at capacity used as the C4 witness input. -/
def cacheW : CacheManager Nat := ⟨[("a", entryFresh), ("b", entryOld)], 2, 1000⟩

/-! ## Expiry agreement between the lazy checks and the sweep -/

/-- Entry that is already expired at time 100, for the C6 witness. -/
def entryExpired : CacheEntry Nat := ⟨7, 0, 10, 2⟩

/-- One-entry cache holding an expired entry, the C6 witness input. -/
def cacheExp : CacheManager Nat := ⟨[("x", entryExpired)], 10, 1000⟩

/-! ## Size bound of `set` -/

/-- Concrete C10 counterexample trace: capacity-1 cache, first `set` stores the
empty-string key, second `set` triggers the eviction scan, whose victim is the
empty-string key; the JS truthiness guard `if (oldestKey)` then skips the
deletion, and the insert pushes the store to two entries. -/
def emptyKeyTrace : CacheManager Nat :=
  (CacheManager.set ⟨[], 1, 1000⟩ 0 "" 0 none).set 5 "a" 1 none

/-! ## `OptimizedFileSystem` (src/lib/local-container/optimized-file-system.ts) -/

/-- File metadata as returned by `stat`, mirroring the `FileStats` interface. -/
structure FileStats where
  size : Nat
  mtimeMs : Int
  isFile : Bool
  isDirectory : Bool
deriving DecidableEq, Repr

/-- The cached file-system layer: the underlying store (the `NodeFileSystem`
base class plus the OS, abstracted to a path-indexed map of file contents),
the content cache and the metadata cache. -/
structure OptimizedFileSystem where
  base : List (String × String)
  cache : CacheManager String
  statsCache : CacheManager FileStats
deriving DecidableEq, Repr

/-- Embedding of `OptimizedFileSystem.writeFile`: delegate to the base store,
overwrite the content-cache entry, and delete the metadata-cache entry. -/
def OptimizedFileSystem.writeFile (fs : OptimizedFileSystem) (now : Int)
    (p content : String) : OptimizedFileSystem :=
  { base := setAssoc p content fs.base,
    cache := fs.cache.set now p content none,
    statsCache := (fs.statsCache.delete p).2 }

/-- Embedding of `OptimizedFileSystem.readFile`: serve a cache hit directly;
on a miss, read the base store and populate the cache; a missing file is the
propagated read error. -/
def OptimizedFileSystem.readFile (fs : OptimizedFileSystem) (now : Int) (p : String) :
    Except String String × OptimizedFileSystem :=
  match (fs.cache.get now p).1 with
  | some v => (Except.ok v, { fs with cache := (fs.cache.get now p).2 })
  | none =>
    match lookupAssoc p fs.base with
    | some content =>
      (Except.ok content, { fs with cache := ((fs.cache.get now p).2).set now p content none })
    | none => (Except.error ("ENOENT"), { fs with cache := (fs.cache.get now p).2 })

/-- Empty cached file system used by the C5 witness. -/
def fsEmpty : OptimizedFileSystem :=
  ⟨[], ⟨[], 500, 60000⟩, ⟨[], 1000, 30000⟩⟩

/-! ## `TerminalManager` (src/lib/local-container/terminal-manager.ts) -/

/-- One terminal session: live processes keyed by pid, command history, and
the session working directory. -/
structure TerminalSession where
  id : String
  processes : List Nat
  history : List String
  cwd : String
deriving DecidableEq, Repr

/-- The terminal-session multiplexer. -/
structure TerminalManager where
  sessions : List (String × TerminalSession)
  workingDirectory : String
deriving DecidableEq, Repr

/-- Embedding of `TerminalManager.createSession` for an explicit session id. -/
def TerminalManager.createSession (tm : TerminalManager) (sessionId : String) :
    TerminalSession × TerminalManager :=
  let s : TerminalSession := ⟨sessionId, [], [], tm.workingDirectory⟩
  (s, { tm with sessions := setAssoc sessionId s tm.sessions })

/-- Embedding of `TerminalManager.getSession`. -/
def TerminalManager.getSession (tm : TerminalManager) (sessionId : String) :
    Option TerminalSession :=
  lookupAssoc sessionId tm.sessions

/-- Ambient environment of the `cd` built-in: the HOME variable and the
combined `fs.access` / `stat.isDirectory` check on a target path. -/
structure BuiltinEnv where
  home : Option String
  isDir : String → Bool

/-- JS `a || b` where both sides are strings: absence and `""` are falsy. -/
def jsOr (a : Option String) (b : String) : String :=
  match a with
  | none => b
  | some s => if s == "" then b else s

/-- The literal invocation appended to a session's history. -/
def historyLine (command : String) (args : List String) : String :=
  command ++ " " ++ String.intercalate " " args

/-- Embedding of `handleCdCommand`: pick the target, resolve it against the
session cwd when relative, and change `cwd` only when it is a directory. -/
def TerminalManager.handleCd (tm : TerminalManager) (env : BuiltinEnv)
    (s : TerminalSession) (args : List String) : TerminalSession :=
  let targetDir0 := jsOr args.head? (jsOr env.home tm.workingDirectory)
  let targetDir := if isAbsolutePath targetDir0 then targetDir0
    else pathResolve s.cwd targetDir0
  if env.isDir targetDir then { s with cwd := targetDir } else s

/-- Result of one `executeCommand` call: a built-in handled locally, or an
external command spawned under a fresh pid. -/
inductive ExecKind where
  | builtin : ExecKind
  | spawned : Nat → ExecKind
deriving DecidableEq, Repr

/-- `Map.set` on the pid keys of a session's live-process map. -/
def addPid (pid : Nat) (ps : List Nat) : List Nat :=
  if ps.contains pid then ps else ps ++ [pid]

/-- Embedding of `TerminalManager.executeCommand`: an unknown session id is a
fatal per-call error; otherwise append to history, intercept the built-ins
`cd`/`pwd`/`clear`, else spawn (the OS-assigned pid is the parameter
`spawnPid`) and register the pid in the session's live map. -/
def TerminalManager.executeCommand (tm : TerminalManager) (env : BuiltinEnv) (spawnPid : Nat)
    (sessionId command : String) (args : List String) :
    Except String (ExecKind × TerminalManager) :=
  match tm.getSession sessionId with
  | none => Except.error ("Terminal session " ++ sessionId ++ " not found")
  | some s =>
    let s1 := { s with history := s.history ++ [historyLine command args] }
    if command == "cd" then
      let s2 := tm.handleCd env s1 args
      Except.ok (ExecKind.builtin, { tm with sessions := setAssoc sessionId s2 tm.sessions })
    else if command == "pwd" || command == "clear" then
      Except.ok (ExecKind.builtin, { tm with sessions := setAssoc sessionId s1 tm.sessions })
    else
      let s2 := { s1 with processes := addPid spawnPid s1.processes }
      Except.ok (ExecKind.spawned spawnPid,
        { tm with sessions := setAssoc sessionId s2 tm.sessions })

/-- Embedding of the terminal execute API route (src/unnamed/part_001): get or
lazily create the session, then call `executeCommand`. -/
def routeExecute (tm : TerminalManager) (env : BuiltinEnv) (spawnPid : Nat)
    (sessionId command : String) (args : List String) :
    Except String (ExecKind × TerminalManager) :=
  match tm.getSession sessionId with
  | some _ => tm.executeCommand env spawnPid sessionId command args
  | none => (tm.createSession sessionId).2.executeCommand env spawnPid sessionId command args

/-- Builtin environment with no HOME and no directories, for concrete runs. -/
def envNone : BuiltinEnv := ⟨none, fun _ => false⟩

/-- Empty multiplexer for concrete runs. -/
def tmEmpty : TerminalManager := ⟨[], "/ws"⟩

/-- Embedding of `TerminalManager.killProcess`; the last component lists the
pids that received the termination signal during the call. -/
def TerminalManager.killProcess (tm : TerminalManager) (sessionId : String) (pid : Nat) :
    Bool × TerminalManager × List Nat :=
  match tm.getSession sessionId with
  | none => (false, tm, [])
  | some s =>
    if s.processes.contains pid then
      (true,
       { tm with
          sessions :=
            setAssoc sessionId { s with processes := s.processes.filter (fun q => !(q == pid)) }
              tm.sessions },
       [pid])
    else (false, tm, [])

/-- Session with one live process, for the C7 witness. -/
def sessionW : TerminalSession := ⟨"s", [5], [], "/ws"⟩

/-- Multiplexer holding `sessionW`, the C7 witness input. -/
def tmW : TerminalManager := ⟨[("s", sessionW)], "/ws"⟩

/-! ## `PreviewManager` (src/lib/local-container/performance-monitor.ts) -/

/-- Suffix of a character list starting at its last dot, if any. -/
def extFromLastDot : List Char → Option (List Char)
  | [] => none
  | c :: rest =>
    match extFromLastDot rest with
    | some e => some e
    | none => if c = '.' then some (c :: rest) else none

/-- Basename characters: everything after the last `'/'`. -/
def afterLastSlash (cs : List Char) : List Char :=
  cs.foldl (fun acc c => if c = '/' then [] else acc ++ [c]) []

/-- Node `path.extname`: the suffix of the basename from its last dot; empty
when there is no dot or the only dot is the leading character of the
basename (a dotfile). -/
def extname (s : String) : String :=
  match afterLastSlash s.data with
  | [] => ""
  | _ :: rest =>
    match extFromLastDot rest with
    | some e => String.mk e
    | none => ""

/-- Preview instance life-cycle states. -/
inductive PreviewStatus where
  | starting : PreviewStatus
  | running : PreviewStatus
  | stopped : PreviewStatus
  | error : PreviewStatus
deriving DecidableEq, Repr

/-- One preview instance as tracked by the orchestrator. -/
structure PreviewInstance where
  id : String
  port : Nat
  status : PreviewStatus
  projectPath : String
  lastActivity : Int
deriving DecidableEq, Repr

/-- The hardcoded restart-triggering extension set of `shouldAutoRestart`. -/
def autoRestartExtensions : List String := [".js", ".ts", ".json", ".env"]

/-- Embedding of `PreviewManager.shouldAutoRestart`. -/
def shouldAutoRestart (filePath : String) : Bool :=
  autoRestartExtensions.contains (extname filePath)

/-- Watcher change handler from `setupActivityMonitoring`: refresh the
instance's `lastActivity`, and report whether `restartPreview` is invoked. -/
def onWatcherChange (now : Int) (pv : PreviewInstance) (path : String) :
    PreviewInstance × Bool :=
  ({ pv with lastActivity := now }, shouldAutoRestart path)

/-- The orchestrator state: registered previews and the used-port set. -/
structure PreviewManager where
  previews : List (String × PreviewInstance)
  usedPorts : List Nat
deriving DecidableEq, Repr

/-- JS `Set.add` on the used-port set. -/
def addPort (port : Nat) (ports : List Nat) : List Nat :=
  if ports.contains port then ports else ports ++ [port]

/-- Embedding of `PreviewManager.createPreview` once the port is fixed:
register the instance as `starting` and mark the port used, then start the
supervisor (`startOk` is its outcome). On failure the status becomes `error`
and the error propagates; neither the registration nor the port mark is
undone. -/
def PreviewManager.createPreview (pm : PreviewManager) (now : Int) (id : String)
    (projectPath : String) (port : Nat) (startOk : Bool) :
    Except Unit PreviewInstance × PreviewManager :=
  let pv : PreviewInstance := ⟨id, port, PreviewStatus.starting, projectPath, now⟩
  let pm1 : PreviewManager := ⟨setAssoc id pv pm.previews, addPort port pm.usedPorts⟩
  if startOk then
    let pv2 : PreviewInstance := { pv with status := PreviewStatus.running }
    (Except.ok pv2, ⟨setAssoc id pv2 pm1.previews, pm1.usedPorts⟩)
  else
    let pv2 : PreviewInstance := { pv with status := PreviewStatus.error }
    (Except.error (), ⟨setAssoc id pv2 pm1.previews, pm1.usedPorts⟩)

/-- Embedding of `PreviewManager.stopPreview` (`stopOk` is the supervisor stop
outcome): success removes the instance and releases the port, failure reports
`false` and changes nothing. An unknown id reports `false`. -/
def PreviewManager.stopPreview (pm : PreviewManager) (id : String) (stopOk : Bool) :
    Bool × PreviewManager :=
  match lookupAssoc id pm.previews with
  | none => (false, pm)
  | some pv =>
    if stopOk then
      (true, ⟨eraseAssoc id pm.previews, pm.usedPorts.filter (fun q => !(q == pv.port))⟩)
    else (false, pm)

/-- Empty orchestrator for concrete runs. -/
def pmEmpty : PreviewManager := ⟨[], []⟩

/-- Running preview instance for the C8 witness. -/
def pvW : PreviewInstance := ⟨"p", 3000, PreviewStatus.running, "proj", 0⟩

/-- Embedding of `PreviewManager.findAvailablePort`: first port of the
inclusive range 3000–9000 that is untracked and passes the bind test. -/
def findAvailablePort (used : List Nat) (bindOk : Nat → Bool) : Option Nat :=
  (List.range' 3000 6001).find? (fun p => !used.contains p && bindOk p)

/-- One `createPreview` call reduced to its two port-allocation steps: the
range scan suspending at the asynchronous bind test, and the later
`usedPorts.add` commit. -/
structure AllocTask where
  computed : Option Nat
  committed : Bool
deriving DecidableEq, Repr

/-- Shared used-port set plus two concurrent `createPreview` calls. -/
structure AllocPair where
  used : List Nat
  taskA : AllocTask
  taskB : AllocTask
deriving Repr

/-- One event-loop step of one call: compute its port from the current shared
snapshot, or commit the computed port into the shared set. -/
def stepAllocTask (bindOk : Nat → Bool) (used : List Nat) (t : AllocTask) :
    AllocTask × List Nat :=
  match t.computed with
  | none => ({ t with computed := findAvailablePort used bindOk }, used)
  | some p => if t.committed then (t, used) else ({ t with committed := true }, addPort p used)

/-- Scheduler step: `true` advances call A, `false` advances call B. -/
def stepAlloc (bindOk : Nat → Bool) (st : AllocPair) (choice : Bool) : AllocPair :=
  if choice then
    let r := stepAllocTask bindOk st.used st.taskA
    ⟨r.2, r.1, st.taskB⟩
  else
    let r := stepAllocTask bindOk st.used st.taskB
    ⟨r.2, st.taskA, r.1⟩

/-- Runs a whole interleaving schedule. -/
def runAlloc (bindOk : Nat → Bool) (sched : List Bool) (st : AllocPair) : AllocPair :=
  sched.foldl (stepAlloc bindOk) st

/-! ## Lemmas and claim theorems -/

/-- Claim C1: the spec says every resolved path that is not a descendant of the
configured root fails with an out-of-bounds error and never reaches the OS
operation. The code's check is a bare string-prefix test, so the relative path
`../workspace` under root `/work` resolves to the sibling directory
`/workspace`, passes the check, and the OS read runs outside the root. -/
theorem resolvePath_admits_escape :
    NodeFileSystem.resolvePath ⟨"/work"⟩ "../workspace" = some ("/workspace") ∧
    isWithinRoot "/work" "/workspace" = false ∧
    NodeFileSystem.readFile ⟨"/work"⟩
      (fun q => if q == "/workspace" then some ("outside-root") else none)
      "../workspace" = some ("outside-root") := by
  decide

theorem any_key_eq_true_iff {β : Type _} (k : String) (l : List (String × β)) :
    l.any (fun kv => kv.1 == k) = true ↔ k ∈ keysOf l := by
  simp [keysOf, List.any_eq_true, beq_iff_eq, List.mem_map]

theorem find_map_replace {β : Type _} (k : String) (v : β) (l : List (String × β))
    (hany : l.any (fun kv => kv.1 == k) = true) :
    (l.map (fun kv => if kv.1 == k then (k, v) else kv)).find? (fun kv => kv.1 == k)
      = some (k, v) := by
  induction l with
  | nil => simp at hany
  | cons hd tl ih =>
    by_cases h : hd.1 = k
    · have hb : (hd.1 == k) = true := beq_iff_eq.mpr h
      simp [hb, List.find?]
    · have hb : (hd.1 == k) = false := beq_eq_false_iff_ne.mpr h
      have htl : tl.any (fun kv => kv.1 == k) = true := by
        simpa [List.any_cons, hb] using hany
      simpa [hb, List.find?] using ih htl

theorem find_append_single {β : Type _} (k : String) (v : β) (l : List (String × β))
    (hany : l.any (fun kv => kv.1 == k) = false) :
    (l ++ [(k, v)]).find? (fun kv => kv.1 == k) = some (k, v) := by
  induction l with
  | nil => simp [List.find?]
  | cons hd tl ih =>
    rw [List.any_cons] at hany
    rcases Bool.or_eq_false_iff.mp hany with ⟨hb, htl⟩
    simpa [hb, List.find?] using ih htl

theorem findAssoc_setAssoc {β : Type _} (k : String) (v : β) (l : List (String × β)) :
    findAssoc k (setAssoc k v l) = some (k, v) := by
  unfold findAssoc setAssoc
  by_cases hany : l.any (fun kv => kv.1 == k) = true
  · simpa [hany] using find_map_replace k v l hany
  · have h' : l.any (fun kv => kv.1 == k) = false := Bool.eq_false_iff.mpr hany
    simpa [h'] using find_append_single k v l h'

theorem not_mem_keys_eraseAssoc {β : Type _} (k : String) (l : List (String × β)) :
    k ∉ keysOf (eraseAssoc k l) := by
  intro hmem
  rcases (List.mem_map).mp hmem with ⟨kv, hkv, hfst⟩
  have := (List.mem_filter).mp hkv
  rcases this with ⟨_, hpred⟩
  simp [hfst] at hpred

theorem mem_keys_of_mem_keys_eraseAssoc {β : Type _} (a k : String) (l : List (String × β))
    (h : a ∈ keysOf (eraseAssoc k l)) : a ∈ keysOf l := by
  rcases (List.mem_map).mp h with ⟨kv, hkv, hfst⟩
  exact (List.mem_map).mpr ⟨kv, (List.mem_filter.mp hkv).1, hfst⟩

theorem findAssoc_of_mem_nodup {β : Type _} (k : String) (v : β) (l : List (String × β))
    (hnd : (keysOf l).Nodup) (hmem : (k, v) ∈ l) :
    findAssoc k l = some (k, v) := by
  induction l with
  | nil => simp at hmem
  | cons hd tl ih =>
    rcases List.mem_cons.mp hmem with heq | htl
    · subst heq
      simp [findAssoc, List.find?]
    · rw [keysOf, List.map_cons] at hnd
      have hhd : hd.1 ∉ List.map Prod.fst tl := (List.nodup_cons.mp hnd).1
      have hndtl : (keysOf tl).Nodup := (List.nodup_cons.mp hnd).2
      have hne : hd.1 ≠ k := by
        intro h
        have hk : k ∈ List.map Prod.fst tl := (List.mem_map).mpr ⟨(k, v), htl, rfl⟩
        exact hhd (h ▸ hk)
      have hb : (hd.1 == k) = false := beq_eq_false_iff_ne.mpr hne
      simpa [findAssoc, List.find?, hb] using ih hndtl htl

theorem length_setAssoc_le {β : Type _} (k : String) (v : β) (l : List (String × β)) :
    (setAssoc k v l).length ≤ l.length + 1 := by
  unfold setAssoc
  by_cases hany : l.any (fun kv => kv.1 == k) = true
  · simp [hany]
  · simp [hany]

theorem length_eraseAssoc_lt {β : Type _} (k : String) (l : List (String × β))
    (h : k ∈ keysOf l) : (eraseAssoc k l).length < l.length := by
  induction l with
  | nil => simp [keysOf] at h
  | cons hd tl ih =>
    by_cases hb : hd.1 = k
    · have hbt : (hd.1 == k) = true := beq_iff_eq.mpr hb
      have hle : (eraseAssoc k tl).length ≤ tl.length := List.length_filter_le _ _
      simp only [eraseAssoc, List.filter_cons, hbt, Bool.not_true, List.length_cons]
      simpa [eraseAssoc] using Nat.lt_succ_of_le hle
    · have hbf : (hd.1 == k) = false := beq_eq_false_iff_ne.mpr hb
      have hk : k ∈ keysOf tl := by
        rcases List.mem_map.mp h with ⟨kv, hkv, hfst⟩
        rcases List.mem_cons.mp hkv with heq | htl
        · exact absurd (heq ▸ hfst) hb
        · exact List.mem_map.mpr ⟨kv, htl, hfst⟩
      have hlt := ih hk
      simp only [eraseAssoc, List.filter_cons, hbf, Bool.not_false, List.length_cons]
      simpa [eraseAssoc] using Nat.succ_lt_succ hlt

theorem victim_foldl_isSome {V : Type} (now : Int) :
    ∀ (l : List (String × CacheEntry V)) (p : String × Int),
      ∃ q, l.foldl (victimStep now) (some p) = some q := by
  intro l
  induction l with
  | nil => intro p; exact ⟨p, rfl⟩
  | cons hd tl ih =>
    intro p
    rw [List.foldl_cons]
    obtain ⟨k0, s0⟩ := p
    by_cases hlt : entryScore now hd.2 < s0
    · have hstep : victimStep now (some (k0, s0)) hd = some (hd.1, entryScore now hd.2) := by
        simp [victimStep, hlt]
      rw [hstep]; exact ih _
    · have hstep : victimStep now (some (k0, s0)) hd = some (k0, s0) := by
        simp [victimStep, hlt]
      rw [hstep]; exact ih _

theorem victim_foldl_min {V : Type} (now : Int) :
    ∀ (l : List (String × CacheEntry V)) (k0 : String) (s0 : Int) (k : String) (s : Int),
      l.foldl (victimStep now) (some (k0, s0)) = some (k, s) →
      s ≤ s0 ∧ (∀ kv ∈ l, s ≤ entryScore now kv.2) ∧
        ((k, s) = (k0, s0) ∨ ∃ kv ∈ l, k = kv.1 ∧ s = entryScore now kv.2) := by
  intro l
  induction l with
  | nil =>
    intro k0 s0 k s h
    simp only [List.foldl_nil, Option.some.injEq, Prod.mk.injEq] at h
    rcases h with ⟨h1, h2⟩
    subst h1; subst h2
    exact ⟨le_refl _, by simp, Or.inl rfl⟩
  | cons hd tl ih =>
    intro k0 s0 k s h
    rw [List.foldl_cons] at h
    by_cases hlt : entryScore now hd.2 < s0
    · have hstep : victimStep now (some (k0, s0)) hd = some (hd.1, entryScore now hd.2) := by
        simp [victimStep, hlt]
      rw [hstep] at h
      rcases ih hd.1 (entryScore now hd.2) k s h with ⟨hle, hall, hex⟩
      refine ⟨le_trans hle (le_of_lt hlt), ?_, ?_⟩
      · intro kv hkv
        rcases List.mem_cons.mp hkv with heq | htl
        · rw [heq]; exact hle
        · exact hall kv htl
      · rcases hex with heq | ⟨kv, hkv, hk, hs⟩
        · refine Or.inr ⟨hd, List.mem_cons_self hd tl, ?_, ?_⟩
          · exact congrArg Prod.fst heq
          · exact congrArg Prod.snd heq
        · exact Or.inr ⟨kv, List.mem_cons_of_mem hd hkv, hk, hs⟩
    · have hstep : victimStep now (some (k0, s0)) hd = some (k0, s0) := by
        simp [victimStep, hlt]
      rw [hstep] at h
      rcases ih k0 s0 k s h with ⟨hle, hall, hex⟩
      refine ⟨hle, ?_, ?_⟩
      · intro kv hkv
        rcases List.mem_cons.mp hkv with heq | htl
        · rw [heq]; exact le_trans hle (not_lt.mp hlt)
        · exact hall kv htl
      · rcases hex with heq | ⟨kv, hkv, hk, hs⟩
        · exact Or.inl heq
        · exact Or.inr ⟨kv, List.mem_cons_of_mem hd hkv, hk, hs⟩

theorem selectVictim_spec {V : Type} (now : Int) (l : List (String × CacheEntry V))
    (k : String) (s : Int) (h : selectVictim now l = some (k, s)) :
    (∀ kv ∈ l, s ≤ entryScore now kv.2) ∧ ∃ kv ∈ l, k = kv.1 ∧ s = entryScore now kv.2 := by
  cases l with
  | nil => simp [selectVictim] at h
  | cons hd tl =>
    have hstep : victimStep now none hd = some (hd.1, entryScore now hd.2) := by
      simp [victimStep]
    have h' : tl.foldl (victimStep now) (some (hd.1, entryScore now hd.2)) = some (k, s) := by
      rw [selectVictim, List.foldl_cons, hstep] at h
      exact h
    rcases victim_foldl_min now tl hd.1 (entryScore now hd.2) k s h' with ⟨hle, hall, hex⟩
    constructor
    · intro kv hkv
      rcases List.mem_cons.mp hkv with heq | htl
      · rw [heq]; exact hle
      · exact hall kv htl
    · rcases hex with heq | ⟨kv, hkv, hk, hs⟩
      · exact ⟨hd, List.mem_cons_self hd tl, congrArg Prod.fst heq, congrArg Prod.snd heq⟩
      · exact ⟨kv, List.mem_cons_of_mem hd hkv, hk, hs⟩

theorem eq_of_mem_keys_nodup {β : Type _} (l : List (String × β)) (hnd : (keysOf l).Nodup)
    (a b : String × β) (ha : a ∈ l) (hb : b ∈ l) (hk : a.1 = b.1) : a = b := by
  induction l with
  | nil => simp at ha
  | cons hd tl ih =>
    rw [keysOf, List.map_cons] at hnd
    have hhd := (List.nodup_cons.mp hnd).1
    have hndtl : (keysOf tl).Nodup := (List.nodup_cons.mp hnd).2
    rcases List.mem_cons.mp ha with haeq | hatl
    · rcases List.mem_cons.mp hb with hbeq | hbtl
      · rw [haeq, hbeq]
      · exfalso
        apply hhd
        have hf : hd.1 = b.1 := by rw [← haeq]; exact hk
        rw [hf]
        exact List.mem_map.mpr ⟨b, hbtl, rfl⟩
    · rcases List.mem_cons.mp hb with hbeq | hbtl
      · exfalso
        apply hhd
        have hf : hd.1 = a.1 := by rw [← hbeq]; exact hk.symm
        rw [hf]
        exact List.mem_map.mpr ⟨a, hatl, rfl⟩
      · exact ih hndtl hatl hbtl

/-- Claim C4: eviction under capacity pressure is score-minimal. Whenever
`evictOldest` removes an entry, every entry it keeps has a score (at the same
snapshot `now`) at least as large as the evicted entry's score. -/
theorem evictOldest_removes_min_score {V : Type} (now : Int) (c : CacheManager V)
    (hnd : (keysOf c.entries).Nodup) :
    ∀ kv ∈ c.entries, kv ∉ (c.evictOldest now).entries →
      ∀ kv' ∈ (c.evictOldest now).entries, entryScore now kv.2 ≤ entryScore now kv'.2 := by
  intro kv hkv hout kv' hkv'
  cases hsel : selectVictim now c.entries with
  | none =>
    have hev : c.evictOldest now = c := by
      unfold CacheManager.evictOldest
      rw [hsel]
    rw [hev] at hout
    exact absurd hkv hout
  | some p =>
    obtain ⟨k, s⟩ := p
    by_cases hko : k = ""
    · have hev : c.evictOldest now = c := by
        unfold CacheManager.evictOldest
        rw [hsel]
        show (if k = "" then c else { c with entries := eraseAssoc k c.entries }) = c
        rw [if_pos hko]
      rw [hev] at hout
      exact absurd hkv hout
    · have hev : (c.evictOldest now).entries = eraseAssoc k c.entries := by
        unfold CacheManager.evictOldest
        rw [hsel]
        show (if k = "" then c else { c with entries := eraseAssoc k c.entries }).entries
          = eraseAssoc k c.entries
        rw [if_neg hko]
      rw [hev] at hout hkv'
      have hk1 : kv.1 = k := by
        by_contra hne
        apply hout
        refine List.mem_filter.mpr ⟨hkv, ?_⟩
        simpa using hne
      rcases selectVictim_spec now c.entries k s hsel with ⟨hall, kv0, hkv0, hk0, hs0⟩
      have hkveq : kv = kv0 :=
        eq_of_mem_keys_nodup c.entries hnd kv kv0 hkv hkv0 (by rw [hk1, hk0])
      have hscore : entryScore now kv.2 = s := by rw [hkveq, hs0]
      have hmem' : kv' ∈ c.entries := (List.mem_filter.mp hkv').1
      rw [hscore]
      exact hall kv' hmem'

/-- Witness for C4: on the concrete cache, the evicted low-score entry's score
is at most the kept entry's score. -/
theorem evictOldest_removes_min_score_witness :
    entryScore 1000 ("a", entryFresh).2 ≤ entryScore 1000 ("b", entryOld).2 :=
  evictOldest_removes_min_score 1000 cacheW (by decide) ("a", entryFresh) (by decide)
    (by decide) ("b", entryOld) (by decide)

theorem not_mem_keys_foldl_erase {V : Type} (ks : List String) (k : String)
    (c : CacheManager V) (h : k ∈ ks ∨ k ∉ keysOf c.entries) :
    k ∉ keysOf ((ks.foldl
      (fun acc k' => { acc with entries := eraseAssoc k' acc.entries }) c).entries) := by
  induction ks generalizing c with
  | nil =>
    rcases h with h | h
    · simp at h
    · simpa using h
  | cons k0 rest ih =>
    rw [List.foldl_cons]
    apply ih
    by_cases hk : k = k0
    · right
      rw [hk]
      exact not_mem_keys_eraseAssoc k0 c.entries
    · rcases h with h | h
      · rcases List.mem_cons.mp h with heq | hrest
        · exact absurd heq hk
        · left; exact hrest
      · right
        intro hmem
        exact h (mem_keys_of_mem_keys_eraseAssoc k k0 c.entries hmem)

/-- Claim C6: once `now - createdAt > ttl` holds for an entry, the lazy checks
and the periodic sweep agree that it is gone: `get` reports a miss, `has`
reports `false`, and `cleanup` removes the entry's key. All three use the very
same expiry predicate `isExpired`. -/
theorem lazy_and_sweep_agree {V : Type} (now : Int) (k : String) (e : CacheEntry V)
    (c : CacheManager V) (hnd : (keysOf c.entries).Nodup) (hmem : (k, e) ∈ c.entries)
    (hexp : e.ttl < now - e.timestamp) :
    (c.get now k).1 = none ∧ (c.has now k).1 = false ∧
      k ∉ keysOf (c.cleanup now).1.entries := by
  have hfind : findAssoc k c.entries = some (k, e) :=
    findAssoc_of_mem_nodup k e c.entries hnd hmem
  have hexpb : isExpired now e = true := decide_eq_true hexp
  refine ⟨?_, ?_, ?_⟩
  · simp [CacheManager.get, hfind, hexpb]
  · simp [CacheManager.has, hfind, hexpb]
  · have hmemk : k ∈ (c.entries.filter (fun kv => isExpired now kv.2)).map Prod.fst :=
      List.mem_map.mpr ⟨(k, e), List.mem_filter.mpr ⟨hmem, hexpb⟩, rfl⟩
    exact not_mem_keys_foldl_erase _ k c (Or.inl hmemk)

/-- Witness for C6 on the concrete expired entry. -/
theorem lazy_and_sweep_agree_witness :
    (cacheExp.get 100 "x").1 = none ∧ (cacheExp.has 100 "x").1 = false ∧
      "x" ∉ keysOf (cacheExp.cleanup 100).1.entries :=
  lazy_and_sweep_agree 100 "x" entryExpired cacheExp (by decide) (by decide) (by decide)

theorem keys_setAssoc_present {β : Type _} (k : String) (v : β) (l : List (String × β))
    (hany : l.any (fun kv => kv.1 == k) = true) :
    keysOf (setAssoc k v l) = keysOf l := by
  unfold setAssoc
  rw [if_pos hany]
  unfold keysOf
  rw [List.map_map]
  apply List.map_congr_left
  intro kv _
  by_cases h : kv.1 = k
  · simp [Function.comp, beq_iff_eq.mpr h, h]
  · simp [Function.comp, beq_eq_false_iff_ne.mpr h]

theorem keys_setAssoc_absent {β : Type _} (k : String) (v : β) (l : List (String × β))
    (hany : l.any (fun kv => kv.1 == k) = false) :
    keysOf (setAssoc k v l) = keysOf l ++ [k] := by
  unfold setAssoc
  rw [if_neg (by simp [hany])]
  simp [keysOf]

theorem nodup_keys_setAssoc {β : Type _} (k : String) (v : β) (l : List (String × β))
    (hnd : (keysOf l).Nodup) : (keysOf (setAssoc k v l)).Nodup := by
  cases hany : l.any (fun kv => kv.1 == k) with
  | true => rw [keys_setAssoc_present k v l hany]; exact hnd
  | false =>
    rw [keys_setAssoc_absent k v l hany]
    have hk : k ∉ keysOf l := by
      intro hmem
      rw [(any_key_eq_true_iff k l).mpr hmem] at hany
      exact Bool.noConfusion hany
    simp [List.nodup_append, hnd, hk]

theorem nodup_keys_eraseAssoc {β : Type _} (k : String) (l : List (String × β))
    (hnd : (keysOf l).Nodup) : (keysOf (eraseAssoc k l)).Nodup := by
  have hsub : List.Sublist (keysOf (eraseAssoc k l)) (keysOf l) :=
    List.Sublist.map Prod.fst (List.filter_sublist l)
  exact hnd.sublist hsub

theorem mem_keys_setAssoc {β : Type _} (a k : String) (v : β) (l : List (String × β))
    (h : a ∈ keysOf (setAssoc k v l)) : a ∈ keysOf l ∨ a = k := by
  cases hany : l.any (fun kv => kv.1 == k) with
  | true => rw [keys_setAssoc_present k v l hany] at h; exact Or.inl h
  | false =>
    rw [keys_setAssoc_absent k v l hany] at h
    rcases List.mem_append.mp h with h | h
    · exact Or.inl h
    · simp at h; exact Or.inr h

/-- Claim C10 (amended): provided the empty string is never used as a key,
`set` keeps the entry count within `maxSize` and preserves the key invariants;
moreover `set` runs the eviction whenever the count is at capacity, even when
the key being written is already present, so the scanned victim (when it is a
different key) is really removed. -/
theorem set_preserves_size_bound {V : Type} (now : Int) (k : String) (v : V)
    (ot : Option Int) (c : CacheManager V)
    (hk : k ≠ "")
    (hkeys : ∀ a ∈ keysOf c.entries, a ≠ "")
    (hnd : (keysOf c.entries).Nodup)
    (hsize : c.entries.length ≤ c.maxSize)
    (hpos : 1 ≤ c.maxSize) :
    (c.set now k v ot).entries.length ≤ c.maxSize ∧
    (∀ a ∈ keysOf (c.set now k v ot).entries, a ≠ "") ∧
    (keysOf (c.set now k v ot).entries).Nodup ∧
    (c.maxSize ≤ c.entries.length →
      ∀ vk s, selectVictim now c.entries = some (vk, s) → vk ≠ k →
        vk ∉ keysOf (c.set now k v ot).entries) := by
  by_cases hcap : c.entries.length ≥ c.maxSize
  · -- at capacity: the eviction runs first
    have hlen : c.entries.length = c.maxSize := le_antisymm hsize hcap
    have hne : c.entries ≠ [] := by
      intro hnil
      rw [hnil] at hlen
      simp at hlen
      omega
    obtain ⟨hd, tl, hcons⟩ := List.exists_cons_of_ne_nil hne
    have hsome : ∃ q, selectVictim now c.entries = some q := by
      rw [hcons]
      unfold selectVictim
      rw [List.foldl_cons]
      have hstep : victimStep now none hd = some (hd.1, entryScore now hd.2) := by
        simp [victimStep]
      rw [hstep]
      exact victim_foldl_isSome now tl _
    obtain ⟨⟨vk, vs⟩, hsel⟩ := hsome
    rcases selectVictim_spec now c.entries vk vs hsel with ⟨hall, kv0, hkv0, hk0, hs0⟩
    have hvkmem : vk ∈ keysOf c.entries := hk0 ▸ List.mem_map.mpr ⟨kv0, hkv0, rfl⟩
    have hvkne : vk ≠ "" := hkeys vk hvkmem
    have hevict : (c.evictOldest now).entries = eraseAssoc vk c.entries := by
      unfold CacheManager.evictOldest
      rw [hsel]
      show (if vk = "" then c else { c with entries := eraseAssoc vk c.entries }).entries
        = eraseAssoc vk c.entries
      rw [if_neg hvkne]
    have hsetdef : (c.set now k v ot).entries
        = setAssoc k ⟨v, now, resolveTTL ot c.defaultTTL, 0⟩ (eraseAssoc vk c.entries) := by
      simp only [CacheManager.set]
      rw [if_pos hcap, hevict]
    have herlt : (eraseAssoc vk c.entries).length < c.entries.length :=
      length_eraseAssoc_lt vk c.entries hvkmem
    have hernd : (keysOf (eraseAssoc vk c.entries)).Nodup := nodup_keys_eraseAssoc vk c.entries hnd
    have herkeys : ∀ a ∈ keysOf (eraseAssoc vk c.entries), a ≠ "" := by
      intro a ha
      exact hkeys a (mem_keys_of_mem_keys_eraseAssoc a vk c.entries ha)
    refine ⟨?_, ?_, ?_, ?_⟩
    · rw [hsetdef]
      calc (setAssoc k ⟨v, now, resolveTTL ot c.defaultTTL, 0⟩
              (eraseAssoc vk c.entries)).length
          ≤ (eraseAssoc vk c.entries).length + 1 := length_setAssoc_le _ _ _
        _ ≤ c.entries.length := by omega
        _ ≤ c.maxSize := hsize
    · intro a ha
      rw [hsetdef] at ha
      rcases mem_keys_setAssoc a k _ _ ha with h | h
      · exact herkeys a h
      · rw [h]; exact hk
    · rw [hsetdef]
      exact nodup_keys_setAssoc k _ _ hernd
    · intro _ vk' s' hsel' hvkk
      have h2 : (vk', s') = (vk, vs) := Option.some.inj (hsel'.symm.trans hsel)
      have hvv : vk' = vk := congrArg Prod.fst h2
      rw [hsetdef]
      intro hmem
      rcases mem_keys_setAssoc vk' k _ _ hmem with h | h
      · rw [hvv] at h
        exact not_mem_keys_eraseAssoc vk c.entries h
      · exact hvkk h
  · -- below capacity: no eviction
    have hlt : c.entries.length < c.maxSize := Nat.lt_of_not_le hcap
    have hsetdef : (c.set now k v ot).entries
        = setAssoc k ⟨v, now, resolveTTL ot c.defaultTTL, 0⟩ c.entries := by
      simp only [CacheManager.set]
      rw [if_neg hcap]
    refine ⟨?_, ?_, ?_, ?_⟩
    · rw [hsetdef]
      calc (setAssoc k ⟨v, now, resolveTTL ot c.defaultTTL, 0⟩ c.entries).length
          ≤ c.entries.length + 1 := length_setAssoc_le _ _ _
        _ ≤ c.maxSize := hlt
    · intro a ha
      rw [hsetdef] at ha
      rcases mem_keys_setAssoc a k _ _ ha with h | h
      · exact hkeys a h
      · rw [h]; exact hk
    · rw [hsetdef]
      exact nodup_keys_setAssoc k _ _ hnd
    · intro hcap' _ _ _ _
      exact absurd hcap' hcap

/-- Counterexample for C10 as stated: the entry count exceeds `maxSize`. -/
theorem set_can_exceed_maxSize :
    emptyKeyTrace.entries.length = 2 ∧ emptyKeyTrace.maxSize = 1 := by
  decide

/-- Witness for the amended C10 theorem on a concrete at-capacity cache. -/
theorem set_preserves_size_bound_witness :
    ((CacheManager.set ⟨[("b", ⟨9, 0, 100, 0⟩)], 1, 100⟩ 50 "a" 1 none).entries.length ≤ 1) :=
  (set_preserves_size_bound 50 "a" 1 none ⟨[("b", ⟨9, 0, 100, 0⟩)], 1, 100⟩
    (by decide) (by decide) (by decide) (by decide) (by decide)).1

theorem findAssoc_set {V : Type} (c : CacheManager V) (now : Int) (k : String) (v : V)
    (ot : Option Int) :
    findAssoc k (c.set now k v ot).entries
      = some (k, ⟨v, now, resolveTTL ot c.defaultTTL, 0⟩) :=
  findAssoc_setAssoc k _ _

theorem get_hit {V : Type} (c : CacheManager V) (now : Int) (k : String) (e : CacheEntry V)
    (hfind : findAssoc k c.entries = some (k, e)) (hexp : isExpired now e = false) :
    (c.get now k).1 = some e.value := by
  unfold CacheManager.get
  rw [hfind]
  simp [hexp]

theorem findAssoc_eq_none_of_not_mem {β : Type _} (k : String) (l : List (String × β))
    (h : k ∉ keysOf l) : findAssoc k l = none := by
  unfold findAssoc
  apply List.find?_eq_none.mpr
  intro kv hkv
  simp only [Bool.not_eq_true, beq_eq_false_iff_ne]
  intro hcontra
  exact h (hcontra ▸ List.mem_map.mpr ⟨kv, hkv, rfl⟩)

/-- Claim C5: `writeFile(p, c)` followed by `readFile(p)` with no intervening
expiry returns exactly `c` (served from the content cache), and the write
deletes the metadata-cache entry for `p`. -/
theorem write_then_read (now later : Int) (p c : String) (fs : OptimizedFileSystem)
    (httl : later - now ≤ fs.cache.defaultTTL) :
    ((fs.writeFile now p c).readFile later p).1 = Except.ok c ∧
    lookupAssoc p (fs.writeFile now p c).statsCache.entries = none := by
  constructor
  · have hfind : findAssoc p (fs.writeFile now p c).cache.entries
        = some (p, ⟨c, now, resolveTTL none fs.cache.defaultTTL, 0⟩) :=
      findAssoc_set fs.cache now p c none
    have hexp : isExpired later (⟨c, now, resolveTTL none fs.cache.defaultTTL, 0⟩ :
        CacheEntry String) = false := by
      unfold isExpired resolveTTL
      simp only [decide_eq_false_iff_not, not_lt]
      exact httl
    have hget : ((fs.writeFile now p c).cache.get later p).1 = some c :=
      get_hit _ later p _ hfind hexp
    unfold OptimizedFileSystem.readFile
    rw [hget]
  · have hkeys : p ∉ keysOf (fs.writeFile now p c).statsCache.entries :=
      not_mem_keys_eraseAssoc p fs.statsCache.entries
    unfold lookupAssoc
    rw [findAssoc_eq_none_of_not_mem p _ hkeys]
    rfl

/-- Witness for C5: a concrete write at time 0 followed by a read at time 1000
returns the written content, and the metadata cache has no entry for the path. -/
theorem write_then_read_witness :
    ((fsEmpty.writeFile 0 "a.txt" "hello").readFile 1000 "a.txt").1 = Except.ok "hello" ∧
    lookupAssoc "a.txt" (fsEmpty.writeFile 0 "a.txt" "hello").statsCache.entries = none :=
  write_then_read 0 1000 "a.txt" "hello" fsEmpty (by decide)

/-- Counterexample for claim C3 as stated: `executeCommand` on a session id
unknown to the multiplexer throws the not-found error instead of lazily
creating the session, and the session map stays empty. -/
theorem executeCommand_unknown_session_fails :
    tmEmpty.executeCommand envNone 1 "s1" "pwd" []
      = Except.error ("Terminal session s1 not found") ∧
    tmEmpty.sessions = [] := by
  exact ⟨rfl, rfl⟩

/-- Claim C3 (amended): `executeCommand` itself fails with a not-found error
on an unknown session id and creates nothing; the lazy create-on-first-
reference lives in the API route, which calls `createSession` when
`getSession` misses, after which the same call succeeds. -/
theorem executeCommand_requires_existing_session (tm : TerminalManager) (env : BuiltinEnv)
    (spawnPid : Nat) (sessionId command : String) (args : List String)
    (h : tm.getSession sessionId = none) :
    tm.executeCommand env spawnPid sessionId command args
      = Except.error ("Terminal session " ++ sessionId ++ " not found") ∧
    ∃ k tm', routeExecute tm env spawnPid sessionId command args = Except.ok (k, tm') := by
  constructor
  · unfold TerminalManager.executeCommand
    rw [h]
  · have hget : (tm.createSession sessionId).2.getSession sessionId
        = some ⟨sessionId, [], [], tm.workingDirectory⟩ := by
      simp only [TerminalManager.createSession, TerminalManager.getSession, lookupAssoc]
      rw [findAssoc_setAssoc]
      rfl
    unfold routeExecute
    rw [h]
    unfold TerminalManager.executeCommand
    simp only [hget]
    by_cases hcd : (command == "cd") = true
    · simp only [if_pos hcd]
      exact ⟨_, _, rfl⟩
    · by_cases hpc : (command == "pwd" || command == "clear") = true
      · simp only [if_neg hcd, if_pos hpc]
        exact ⟨_, _, rfl⟩
      · simp only [if_neg hcd, if_neg hpc]
        exact ⟨_, _, rfl⟩

/-- Witness for the amended C3: on the empty multiplexer the direct call fails
while the route-level call succeeds. -/
theorem executeCommand_requires_existing_session_witness :
    tmEmpty.executeCommand envNone 1 "s1" "pwd" []
      = Except.error ("Terminal session " ++ "s1" ++ " not found") ∧
    ∃ k tm', routeExecute tmEmpty envNone 1 "s1" "pwd" [] = Except.ok (k, tm') :=
  executeCommand_requires_existing_session tmEmpty envNone 1 "s1" "pwd" [] (by rfl)

theorem length_filter_ne_pid (pid : Nat) (l : List Nat) (hnd : l.Nodup) (hmem : pid ∈ l) :
    (l.filter (fun q => !(q == pid))).length + 1 = l.length := by
  induction l with
  | nil => simp at hmem
  | cons hd tl ih =>
    rcases List.nodup_cons.mp hnd with ⟨hhd, hndtl⟩
    by_cases h : hd = pid
    · subst h
      have hid : tl.filter (fun q => !(q == hd)) = tl := by
        apply List.filter_eq_self.mpr
        intro a ha
        simp only [Bool.not_eq_true', beq_eq_false_iff_ne]
        intro hc
        exact hhd (hc ▸ ha)
      simp [List.filter_cons, hid]
    · have hb : (hd == pid) = false := beq_eq_false_iff_ne.mpr h
      have hmemtl : pid ∈ tl := by
        rcases List.mem_cons.mp hmem with he | ht
        · exact absurd he.symm h
        · exact ht
      have hih := ih hndtl hmemtl
      simp [List.filter_cons, hb]
      omega

theorem killProcess_dead_pid (tm : TerminalManager) (sessionId : String) (pid : Nat)
    (s : TerminalSession) (hs : tm.getSession sessionId = some s)
    (hnmem : pid ∉ s.processes) :
    tm.killProcess sessionId pid = (false, tm, []) := by
  unfold TerminalManager.killProcess
  simp [hs, hnmem]

/-- Claim C7: killing a live pid signals exactly that pid, removes exactly its
entry from the session's live-process map and returns `true`; a second kill of
the same pid is a no-op returning `false`; an unknown session id or an unknown
pid return `false` without any effect. -/
theorem killProcess_spec (tm : TerminalManager) (sessionId : String) (pid : Nat) :
    (∀ s, tm.getSession sessionId = some s → pid ∈ s.processes → s.processes.Nodup →
      (tm.killProcess sessionId pid).1 = true ∧
      (tm.killProcess sessionId pid).2.2 = [pid] ∧
      (∃ s', (tm.killProcess sessionId pid).2.1.getSession sessionId = some s' ∧
        pid ∉ s'.processes ∧
        s'.processes.length + 1 = s.processes.length ∧
        (∀ q, q ≠ pid → (q ∈ s'.processes ↔ q ∈ s.processes))) ∧
      (tm.killProcess sessionId pid).2.1.killProcess sessionId pid
        = (false, (tm.killProcess sessionId pid).2.1, [])) ∧
    (tm.getSession sessionId = none →
      tm.killProcess sessionId pid = (false, tm, [])) ∧
    (∀ s, tm.getSession sessionId = some s → pid ∉ s.processes →
      tm.killProcess sessionId pid = (false, tm, [])) := by
  refine ⟨?_, ?_, ?_⟩
  · intro s hs hmem hnd
    have hcont : s.processes.contains pid = true := by
      simpa using hmem
    have hkill : tm.killProcess sessionId pid
        = (true,
           { tm with
              sessions :=
                setAssoc sessionId
                  { s with processes := s.processes.filter (fun q => !(q == pid)) } tm.sessions },
           [pid]) := by
      unfold TerminalManager.killProcess
      simp [hs, hmem]
    have hget' : (tm.killProcess sessionId pid).2.1.getSession sessionId
        = some { s with processes := s.processes.filter (fun q => !(q == pid)) } := by
      rw [hkill]
      show lookupAssoc sessionId (setAssoc sessionId _ tm.sessions) = _
      unfold lookupAssoc
      rw [findAssoc_setAssoc]
      rfl
    have hnotmem : pid ∉ s.processes.filter (fun q => !(q == pid)) := by
      intro hmem'
      have := List.of_mem_filter hmem'
      simp at this
    refine ⟨by rw [hkill], by rw [hkill], ?_, ?_⟩
    · refine ⟨{ s with processes := s.processes.filter (fun q => !(q == pid)) },
        hget', hnotmem, ?_, ?_⟩
      · exact length_filter_ne_pid pid s.processes hnd hmem
      · intro q hq
        constructor
        · intro hin
          exact (List.mem_filter.mp hin).1
        · intro hin
          refine List.mem_filter.mpr ⟨hin, ?_⟩
          simpa using hq
    · exact killProcess_dead_pid _ sessionId pid
        { s with processes := s.processes.filter (fun q => !(q == pid)) } hget' hnotmem
  · intro h
    unfold TerminalManager.killProcess
    simp [h]
  · intro s hs hnmem
    exact killProcess_dead_pid tm sessionId pid s hs hnmem

/-- Witness for C7 on the concrete multiplexer: the first kill succeeds and
empties the live map, the second kill is a `false` no-op. -/
theorem killProcess_spec_witness :
    (tmW.killProcess "s" 5).1 = true ∧
    (tmW.killProcess "s" 5).2.2 = [5] ∧
    (∃ s', (tmW.killProcess "s" 5).2.1.getSession "s" = some s' ∧
      5 ∉ s'.processes ∧
      s'.processes.length + 1 = sessionW.processes.length ∧
      (∀ q, q ≠ 5 → (q ∈ s'.processes ↔ q ∈ sessionW.processes))) ∧
    (tmW.killProcess "s" 5).2.1.killProcess "s" 5
      = (false, (tmW.killProcess "s" 5).2.1, []) :=
  (killProcess_spec tmW "s" 5).1 sessionW (by decide) (by decide) (by decide)

/-- Claim C2: the spec forbids partial state, yet a `createPreview` whose
supervisor start fails leaves the instance registered with status `error`
while its port stays in the used-port set, and the port is never released. -/
theorem createPreview_failure_leaks_port :
    (pmEmpty.createPreview 0 "p1" "proj" 3000 false).1 = Except.error () ∧
    lookupAssoc "p1" (pmEmpty.createPreview 0 "p1" "proj" 3000 false).2.previews
      = some ⟨"p1", 3000, PreviewStatus.error, "proj", 0⟩ ∧
    (pmEmpty.createPreview 0 "p1" "proj" 3000 false).2.usedPorts = [3000] := by
  exact ⟨rfl, rfl, rfl⟩

/-- Claim C8: a change event updates `lastActivity` and triggers
`restartPreview` exactly when the changed file's extension is in the
restart-triggering set; in particular `.ts` triggers and `.md` does not. -/
theorem autoRestart_policy (now : Int) (pv : PreviewInstance) (p : String) :
    (onWatcherChange now pv p).1 = { pv with lastActivity := now } ∧
    ((onWatcherChange now pv p).2 = true ↔ extname p ∈ autoRestartExtensions) ∧
    (extname p = ".ts" → (onWatcherChange now pv p).2 = true) ∧
    (extname p = ".md" → (onWatcherChange now pv p).2 = false) := by
  refine ⟨rfl, ?_, ?_, ?_⟩
  · show shouldAutoRestart p = true ↔ extname p ∈ autoRestartExtensions
    unfold shouldAutoRestart
    exact List.elem_iff
  · intro h
    show shouldAutoRestart p = true
    unfold shouldAutoRestart
    rw [h]
    decide
  · intro h
    show shouldAutoRestart p = false
    unfold shouldAutoRestart
    rw [h]
    decide

/-- Witness for C8 at two concrete changed paths. -/
theorem autoRestart_policy_witness :
    (onWatcherChange 5 pvW "src/app.ts").2 = true ∧
    (onWatcherChange 5 pvW "notes/readme.md").2 = false :=
  ⟨(autoRestart_policy 5 pvW "src/app.ts").2.2.1 (by decide),
   (autoRestart_policy 5 pvW "notes/readme.md").2.2.2 (by decide)⟩

/-- Claim C9: the spec demands that two concurrent `createPreview` calls never
receive the same port, but the scan awaits the bind test before the caller
marks the port used, so the interleaving scan-A, scan-B, commit-A, commit-B
(legal on the event loop) hands port 3000 to both calls. -/
theorem concurrent_createPreview_same_port :
    ((runAlloc (fun _ => true) [true, false, true, false]
        ⟨[], ⟨none, false⟩, ⟨none, false⟩⟩).taskA.computed = some 3000) ∧
    ((runAlloc (fun _ => true) [true, false, true, false]
        ⟨[], ⟨none, false⟩, ⟨none, false⟩⟩).taskB.computed = some 3000) ∧
    ((runAlloc (fun _ => true) [true, false, true, false]
        ⟨[], ⟨none, false⟩, ⟨none, false⟩⟩).taskA.committed = true) ∧
    ((runAlloc (fun _ => true) [true, false, true, false]
        ⟨[], ⟨none, false⟩, ⟨none, false⟩⟩).taskB.committed = true) := by
  exact ⟨rfl, rfl, rfl, rfl⟩
